import Mathlib

/-!
Verification of the ketabonline book extractor (src/Books/scrapper.py).

The Python source is shallowly embedded as executable Lean definitions:

* Parsed HTML documents are represented by the `Html` structure, whose fields
  record precisely the results of the CSS queries the code performs
  (`soup.select_one` on the pagination widget, `soup.select` over `div`
  elements and table-of-contents anchors, `article` elements and their
  paragraphs).  Paragraph text models `get_text(strip=True)` applied after the
  noise-element `decompose` calls, so `Para.text` is the already-stripped text.
* Python regular-expression operations used by the code
  (`re.search` of a number/slash/number pattern, `re.search` of a page
  parameter, `re.match` of an all-digit string, `re.sub` removing digit-dash
  markers) are implemented as character-list scanners with the same
  leftmost/greedy semantics; `\d` and `\s` are modelled as ASCII digit and
  whitespace classes.
* The network is modelled as a per-page oracle: for the retry loop of
  `get_page` an oracle gives the outcome of each attempt, and for the
  assembly of `extract_book` an oracle gives the final fetched markup of each
  page (`none` covering both a failed fetch and an empty body, which the
  callers treat identically through Python truthiness checks).
* `asyncio.as_completed` delivers results in an arbitrary completion order;
  this order is passed explicitly as a list of page numbers.
* The `asyncio.Semaphore` admission gate is modelled by a small-step machine
  whose acquire transition is enabled only while fewer than `concurrency`
  tasks hold the gate, mirroring `async with self.semaphore` wrapping the
  whole retry loop of `get_page`.
-/

/-- ASCII whitespace as matched by the whitespace class of Python regular
expressions (space, tab, newline, carriage return, form feed, vertical tab). -/
def pyIsSpace (c : Char) : Bool :=
  c = ' ' || c = '\t' || c = '\n' || c = '\r' || c = '\x0c' || c = '\x0b'

/-- Numeric value of a digit run, most significant digit first: the value of
`int(...)` applied to the matched digit group. -/
def digitsToNat (ds : List Char) : Nat :=
  ds.foldl (fun acc c => 10 * acc + (c.toNat - '0'.toNat)) 0

/-- One anchored attempt of the pattern digits, optional whitespace, slash,
optional whitespace, digits, at the head of the character list; returns the
two numeric groups.  Because a digit can be followed in the pattern only by
more digits or by whitespace-then-slash, the greedy maximal digit run is the
unique viable choice, so no backtracking is needed. -/
def numSlashNumAt (cs : List Char) : Option (Nat × Nat) :=
  let ds1 := cs.takeWhile Char.isDigit
  if ds1.isEmpty then none
  else
    let rest1 := (cs.dropWhile Char.isDigit).dropWhile pyIsSpace
    match rest1 with
    | '/' :: rest2 =>
      let rest3 := rest2.dropWhile pyIsSpace
      let ds2 := rest3.takeWhile Char.isDigit
      if ds2.isEmpty then none else some (digitsToNat ds1, digitsToNat ds2)
    | _ => none

/-- Leftmost match of the number/slash/number pattern, as found by
`re.search` in `get_total_pages`. -/
def findNumSlashNum : List Char → Option (Nat × Nat)
  | [] => none
  | c :: cs =>
    match numSlashNumAt (c :: cs) with
    | some r => some r
    | none => findNumSlashNum cs

/-- One anchored attempt of the pattern digits-then-dash at the head of the
character list, returning the remainder after the match.  Used both by the
`re.sub` model and to state what "begins with a digits-dash prefix" means. -/
def ddMatch (cs : List Char) : Option (List Char) :=
  if (cs.takeWhile Char.isDigit).isEmpty then none
  else
    match cs.dropWhile Char.isDigit with
    | '-' :: rest => some rest
    | _ => none

/-- Fuel-indexed scanner for `re.sub` of the digits-dash pattern with empty
replacement: scan left to right, drop each leftmost non-overlapping match,
keep every other character.  The fuel only forces structural recursion; with
fuel at least the length of the list it never runs out. -/
def pySubDDFuel : Nat → List Char → List Char
  | 0, l => l
  | _ + 1, [] => []
  | f + 1, c :: cs =>
    match ddMatch (c :: cs) with
    | some rest => pySubDDFuel f rest
    | none => c :: pySubDDFuel f cs

/-- Model of `re.sub` removing every digits-dash occurrence from a string,
as performed by the cleanup line of `extract_content_from_html`. -/
def pySubDD (l : List Char) : List Char :=
  pySubDDFuel l.length l

/-- The textual cleanup applied to a surviving paragraph. -/
def cleanText (s : String) : String :=
  ⟨pySubDD s.data⟩

/-- Decides whether any digits-dash occurrence appears anywhere in the
character list. -/
def hasDDAux : List Char → Bool
  | [] => false
  | c :: cs => (ddMatch (c :: cs)).isSome || hasDDAux cs

/-- Decides whether a string contains a digits-dash occurrence anywhere. -/
def hasDigitDash (s : String) : Bool :=
  hasDDAux s.data

/-- Success of `re.match` anchored at the start with pattern all-digits-to-end
on already-stripped text: the string is nonempty and every character is a
digit. -/
def pyMatchAllDigits (s : String) : Bool :=
  !s.data.isEmpty && s.data.all Char.isDigit

/-- Python `str.strip()` with no argument: remove whitespace from both ends
(whitespace modelled as ASCII). -/
def pyStrip (s : String) : String :=
  ⟨(((s.data.dropWhile pyIsSpace).reverse.dropWhile pyIsSpace).reverse)⟩

/-- Python `str.join`: empty string on an empty list, otherwise the elements
with the separator between consecutive elements. -/
def pyJoin (sep : String) : List String → String
  | [] => ""
  | [a] => a
  | a :: b :: t => a ++ sep ++ pyJoin sep (b :: t)

/-- A paragraph element as queried by the extractor: whether
`select_one` of an internal anchor (href starting with a hash) finds
something, and the text produced by `get_text(strip=True)` after the noise
elements were decomposed. -/
structure Para where
  hasInternalAnchor : Bool
  text : String
deriving DecidableEq

/-- An `article` element: the list of its paragraph elements. -/
structure Article where
  paragraphs : List Para
deriving DecidableEq

/-- A parsed HTML page, recording the results of each CSS query performed by
the source.  `pageNavDivs` is `none` when no pagination widget element
exists, otherwise the texts of the div elements inside it in document order;
`divTexts` lists the text of every div of the page in document order;
`tocHrefs` lists the href attribute of every table-of-contents anchor (the
empty string standing for a missing attribute); `fallbackParas` is the result
of the broader second-pass paragraph query and `genericParas` the paragraphs
of the generic container used by the third pass (`none` when that container
is absent). -/
structure Html where
  pageNavDivs : Option (List String)
  divTexts : List String
  tocHrefs : List String
  articles : List Article
  fallbackParas : List Para
  genericParas : Option (List Para)
deriving DecidableEq

/-- Decision and contribution of one first-pass paragraph, following the loop
body order of the source: a paragraph containing an internal anchor with text
shorter than five characters is skipped; then only a nonempty text that is
not all digits survives, after the digit-dash cleanup. -/
def paraContribution (p : Para) : Option String :=
  if p.hasInternalAnchor ∧ p.text.length < 5 then none
  else if p.text ≠ "" ∧ pyMatchAllDigits p.text = false then
    some (cleanText p.text)
  else none

/-- First-pass content collected from one article. -/
def processArticle (a : Article) : List String :=
  a.paragraphs.filterMap paraContribution

/-- Filter used by the second and third extraction passes: keep a nonempty
text that is not all digits, with no anchor check and no cleanup. -/
def keepPlain (p : Para) : Option String :=
  if p.text ≠ "" ∧ pyMatchAllDigits p.text = false then some p.text else none

/-- Model of `extract_content_from_html`.  The argument is `none` when the
page markup is absent or empty (the source returns the empty string at once
in that case); otherwise the three cascading passes run in order, the first
pass with a nonempty result winning, and the surviving paragraph texts are
joined with a blank line. -/
def extract_content_from_html : Option Html → String
  | none => ""
  | some doc =>
    let c1 := (doc.articles.map processArticle).flatten
    let content :=
      if c1.isEmpty then
        let c2 := doc.fallbackParas.filterMap keepPlain
        if c2.isEmpty then
          match doc.genericParas with
          | some ps => ps.filterMap keepPlain
          | none => []
        else c2
      else c1
    if content.isEmpty then "" else pyJoin "\n\n" content

/-- Text of the first div containing a slash inside the pagination widget,
stripped — the result of the widget heuristic of `get_total_pages` before the
numeric pattern is applied (`none` when the widget is absent or contains no
such div). -/
def pageNavSlashText (doc : Html) : Option String :=
  doc.pageNavDivs.bind fun ds =>
    (ds.find? fun t => t.data.contains '/').map pyStrip

/-- Text of the first div of the whole page whose text contains a slash and
matches the number/slash/number pattern — the div-scan heuristic of
`get_total_pages`. -/
def divScanText (doc : Html) : Option String :=
  doc.divTexts.find? fun t =>
    t.data.contains '/' && (findNumSlashNum t.data).isSome

/-- Leftmost occurrence of the literal characters of a page query parameter
followed by at least one digit, returning the numeric value of the greedy
digit run: the `re.search` of the TOC heuristic.  An occurrence of the
literal prefix not followed by a digit does not stop the search. -/
def findPageParam : List Char → Option Nat
  | [] => none
  | c :: cs =>
    match c :: cs with
    | 'p' :: 'a' :: 'g' :: 'e' :: '=' :: rest =>
      let ds := rest.takeWhile Char.isDigit
      if ds.isEmpty then findPageParam cs else some (digitsToNat ds)
    | _ => findPageParam cs

/-- Page numbers harvested from the table-of-contents anchors. -/
def tocPageNums (doc : Html) : List Nat :=
  doc.tocHrefs.filterMap fun h => findPageParam h.data

/-- TOC maximum with the hardcoded last-resort page count of the source:
`max(page_numbers)` when any TOC page number was found, otherwise 560. -/
def tocOrFallback (doc : Html) : Nat :=
  match tocPageNums doc with
  | [] => 560
  | a :: t => t.foldl Nat.max a

/-- Model of `get_total_pages` applied to the already-fetched first-page
markup.  The widget heuristic fixes `pagination_text` whenever the widget
contains a slash-bearing div; only when it does not is the div scan tried;
the numeric pattern is then applied to whichever text was fixed, and on
failure (or when no text was fixed) the TOC maximum and the constant
fallback conclude. -/
def get_total_pages (doc : Html) : Nat :=
  let pt :=
    match pageNavSlashText doc with
    | some t => some t
    | none => divScanText doc
  match pt with
  | some t =>
    match findNumSlashNum t.data with
    | some r => r.2
    | none => tocOrFallback doc
  | none => tocOrFallback doc

/-- Outcome of a single HTTP attempt as observed by `get_page`: a response
with a status code and body text, or a transport-level failure (the
connection errors and timeouts the source catches). -/
inductive AttemptOutcome where
  | httpStatus (code : Nat) (body : String)
  | transportError
deriving DecidableEq

/-- Whether an attempt outcome makes the retry loop continue: every status
other than 200, and every transport error. -/
def attemptFails : AttemptOutcome → Bool
  | .httpStatus code _ => !(code == 200)
  | .transportError => true

/-- The retry loop of `get_page`, started at attempt index `att` with `rem`
loop iterations remaining; the oracle gives the outcome of each attempt
index.  Returns the body on the first status-200 response together with the
number of attempts performed and the list of backoff sleeps, each failed
attempt sleeping the delay scaled by its attempt index plus one.  Delays are
modelled as rationals. -/
def get_page_go (oc : Nat → AttemptOutcome) (d : ℚ) :
    Nat → Nat → Option String × Nat × List ℚ
  | _, 0 => (none, 0, [])
  | att, rem + 1 =>
    match oc att with
    | .httpStatus code body =>
      if code = 200 then (some body, 1, [])
      else
        let r := get_page_go oc d (att + 1) rem
        (r.1, r.2.1 + 1, d * ((att : ℚ) + 1) :: r.2.2)
    | .transportError =>
      let r := get_page_go oc d (att + 1) rem
      (r.1, r.2.1 + 1, d * ((att : ℚ) + 1) :: r.2.2)

/-- Model of `get_page`: the returned pair of page number and optional body.
The loop never raises: exhausted retries yield the page number with no
content. -/
def get_page (oc : Nat → AttemptOutcome) (maxRetries : Nat) (d : ℚ)
    (pageNumber : Nat) : Nat × Option String :=
  (pageNumber, (get_page_go oc d 0 maxRetries).1)

/-- Number of attempts `get_page` performs against the given oracle. -/
def get_page_attempts (oc : Nat → AttemptOutcome) (d : ℚ)
    (maxRetries : Nat) : Nat :=
  (get_page_go oc d 0 maxRetries).2.1

/-- Backoff sleeps `get_page` performs against the given oracle, in order. -/
def get_page_sleeps (oc : Nat → AttemptOutcome) (d : ℚ)
    (maxRetries : Nat) : List ℚ :=
  (get_page_go oc d 0 maxRetries).2.2

/-- The cross-page separator of `extract_book`. -/
def pageSep : String := "\n\n===========\n\n"

/-- Extraction applied on top of one page's terminal fetch result: the text a
successful page contributes, the empty string when the fetch yielded
nothing. -/
def pageText (fetch : Nat → Option Html) (p : Nat) : String :=
  ((fetch p).map fun h => extract_content_from_html (some h)).getD ""

/-- The slot-writing loop of `extract_book`: tasks reach their terminal
outcome in the given completion order, and each successful page writes its
extracted text into the slot of its own page number (slot indices are page
number minus one); a failed page leaves its slot untouched. -/
def writeSlots (fetch : Nat → Option Html) :
    List Nat → (Nat → Option String) → Nat → Option String
  | [], s => s
  | p :: rest, s =>
    match fetch p with
    | some h =>
      writeSlots fetch rest fun j =>
        if j = p - 1 then some (extract_content_from_html (some h)) else s j
    | none => writeSlots fetch rest s

/-- Model of `extract_book`.  `fetch` gives the terminal result of the page
fetch task of each page (`none` for a failed fetch or an empty body, which
the truthiness checks of the source treat alike), and `order` is the
completion order delivered by `asyncio.as_completed`.  A failed first-page
fetch makes `get_total_pages` raise, which the surrounding handler turns
into a `None` return; otherwise the slots are filled in completion order,
read back in ascending slot order, filtered by truthiness and joined with
the cross-page separator. -/
def extract_book (fetch : Nat → Option Html) (order : List Nat) :
    Option String :=
  match fetch 1 with
  | none => none
  | some h1 =>
    let total := get_total_pages h1
    let slots := writeSlots fetch order fun _ => none
    let valid :=
      (((List.range total).map slots).filterMap id).filter fun r => r != ""
    some (pyJoin pageSep valid)

/-- Model of `save_to_file`: falsy content is rejected without writing,
anything else is written out (the file system write itself is assumed to
succeed); the second component records the written content, `none` when no
file was written. -/
def save_to_file (content : String) : Bool × Option String :=
  if content = "" then (false, none) else (true, some content)

/-- Model of `extract_and_save`: save the extracted book when the result is
truthy, report failure otherwise. -/
def extract_and_save (fetch : Nat → Option Html) (order : List Nat) :
    Bool × Option String :=
  match extract_book fetch order with
  | none => (false, none)
  | some c => if c = "" then (false, none) else save_to_file c

/-- Python truthiness of the value returned by `extract_book`, as tested by
`if content:` in `extract_and_save`. -/
def pyTruthy : Option String → Bool
  | none => false
  | some s => s != ""

/-- Status of one page task with respect to the semaphore: not yet admitted,
holding the gate with a number of attempts already performed, or finished
(gate released). -/
inductive TaskSt where
  | idle
  | active (k : Nat)
  | finished
deriving DecidableEq

/-- Events of the admission-gate machine: task `i` acquires the semaphore,
performs one fetch attempt, or releases the semaphore. -/
inductive SemEv where
  | acquire (i : Nat)
  | attempt (i : Nat)
  | release (i : Nat)
deriving DecidableEq

/-- Whether a task currently holds the semaphore. -/
def isActive : TaskSt → Bool
  | .active _ => true
  | _ => false

/-- Number of tasks currently holding the semaphore. -/
def activeCount (σ : List TaskSt) : Nat :=
  (σ.filter isActive).length

/-- One step of the admission-gate machine with gate capacity `conc`, where
`A i` is the total number of attempts the retry loop of task `i` performs.
Acquiring is enabled only below the capacity and only from the idle state;
attempts happen only while holding the gate, mirroring the retry loop
running entirely inside `async with self.semaphore`; the gate is released
exactly once, after the terminal attempt. -/
def semStep (conc : Nat) (A : Nat → Nat) (σ : List TaskSt) :
    SemEv → Option (List TaskSt)
  | .acquire i =>
    match σ[i]? with
    | some .idle =>
      if activeCount σ < conc then some (σ.set i (.active 0)) else none
    | _ => none
  | .attempt i =>
    match σ[i]? with
    | some (.active k) =>
      if k < A i then some (σ.set i (.active (k + 1))) else none
    | _ => none
  | .release i =>
    match σ[i]? with
    | some (.active k) =>
      if k = A i then some (σ.set i .finished) else none
    | _ => none

/-- Run of the admission-gate machine over a list of events; `none` when some
event is not enabled. -/
def semExec (conc : Nat) (A : Nat → Nat) :
    List TaskSt → List SemEv → Option (List TaskSt)
  | σ, [] => some σ
  | σ, e :: es =>
    match semStep conc A σ e with
    | some σ2 => semExec conc A σ2 es
    | none => none

/-- Initial state: one idle task per page. -/
def initTasks (n : Nat) : List TaskSt :=
  List.replicate n .idle

/-- Number of occurrences of one event in a trace. -/
def countEv (tr : List SemEv) (e : SemEv) : Nat :=
  (tr.filter fun x => x = e).length

/-- Specification-side reference value for the assembled book, written from
the words of the spec rather than from the code: the extracted texts of pages
1 to `total` in ascending page order, empty ones removed, joined with the
cross-page separator.  The assembly claims compare `extract_book` against
this value. -/
def ascendingAssembly (fetch : Nat → Option Html) (total : Nat) : String :=
  pyJoin pageSep
    (((List.range' 1 total).map (pageText fetch)).filter fun t => t != "")

/-- Number of acquire events a task in this state has performed. -/
def acqOf : TaskSt → Nat
  | .idle => 0
  | .active _ => 1
  | .finished => 1

/-- Number of attempt events a task in this state has performed, where `Ai`
is the total attempt count of its retry loop. -/
def attOf (Ai : Nat) : TaskSt → Nat
  | .idle => 0
  | .active k => k
  | .finished => Ai

/-- Number of release events a task in this state has performed. -/
def relOf : TaskSt → Nat
  | .finished => 1
  | _ => 0

/-- A well-formed machine state never records more attempts for a holding
task than its retry loop performs. -/
def wfSt (A : Nat → Nat) (σ : List TaskSt) : Prop :=
  ∀ i k, σ[i]? = some (.active k) → k ≤ A i

/-- Fixture: first page of a three-page book whose pagination widget shows
one of three, with one paragraph of content. -/
def html3a : Html :=
  { pageNavDivs := some ["1 / 3"], divTexts := [], tocHrefs := [],
    articles := [{ paragraphs := [{ hasInternalAnchor := false, text := "pageone" }] }],
    fallbackParas := [], genericParas := none }

/-- Fixture: second page of the three-page book. -/
def html3b : Html :=
  { pageNavDivs := none, divTexts := [], tocHrefs := [],
    articles := [{ paragraphs := [{ hasInternalAnchor := false, text := "pagetwo" }] }],
    fallbackParas := [], genericParas := none }

/-- Fixture: third page of the three-page book. -/
def html3c : Html :=
  { pageNavDivs := none, divTexts := [], tocHrefs := [],
    articles := [{ paragraphs := [{ hasInternalAnchor := false, text := "pagethree" }] }],
    fallbackParas := [], genericParas := none }

/-- Fixture: a network where all three pages of the three-page book fetch
successfully. -/
def fetch3 : Nat → Option Html := fun p =>
  if p = 1 then some html3a
  else if p = 2 then some html3b
  else if p = 3 then some html3c
  else none

/-- Fixture: markup whose pagination widget contains a slash-bearing div
whose text has no numeric pattern, while a later plain div of the page does
match the pattern. -/
def htmlWidgetNoMatch : Html :=
  { pageNavDivs := some ["a / b"], divTexts := ["a / b", "3 / 7"],
    tocHrefs := [], articles := [], fallbackParas := [], genericParas := none }

/-- Fixture: markup whose pagination widget shows page 12 of 560. -/
def htmlWidget560 : Html :=
  { pageNavDivs := some ["12 / 560"], divTexts := ["12 / 560"],
    tocHrefs := [], articles := [], fallbackParas := [], genericParas := none }

/-- Fixture: a one-page book whose page has no extractable content. -/
def htmlBlank1 : Html :=
  { pageNavDivs := some ["1 / 1"], divTexts := [], tocHrefs := [],
    articles := [], fallbackParas := [], genericParas := none }

/-- Fixture: a two-page book whose pages have no extractable content. -/
def htmlBlank2 : Html :=
  { pageNavDivs := some ["1 / 2"], divTexts := [], tocHrefs := [],
    articles := [], fallbackParas := [], genericParas := none }

/-- Fixture: a one-page book with one paragraph of content. -/
def htmlOne : Html :=
  { pageNavDivs := some ["1 / 1"], divTexts := [], tocHrefs := [],
    articles := [{ paragraphs := [{ hasInternalAnchor := false, text := "pageone" }] }],
    fallbackParas := [], genericParas := none }

/-- Fixture: markup whose only article holds a single bare page-number
paragraph, so every extraction pass filters everything out. -/
def htmlNoise : Html :=
  { pageNavDivs := none, divTexts := [], tocHrefs := [],
    articles := [{ paragraphs := [{ hasInternalAnchor := false, text := "42" }] }],
    fallbackParas := [], genericParas := none }

/-- A successful anchored digits-dash match consumes at least two
characters, so the remainder is strictly shorter. -/
theorem ddMatch_length {cs t : List Char} (h : ddMatch cs = some t) :
    t.length < cs.length := by
  unfold ddMatch at h
  split at h
  · exact Option.noConfusion h
  · split at h
    · rename_i rest hdrop
      injection h with h2
      subst h2
      have e1 : cs.takeWhile Char.isDigit ++ cs.dropWhile Char.isDigit = cs :=
        List.takeWhile_append_dropWhile Char.isDigit cs
      have e2 : (cs.takeWhile Char.isDigit).length +
          (cs.dropWhile Char.isDigit).length = cs.length := by
        rw [← List.length_append, e1]
      rw [hdrop] at e2
      simp only [List.length_cons] at e2
      omega
    · exact Option.noConfusion h

/-- The fuel of the digits-dash scanner is irrelevant once it covers the
length of the input. -/
theorem pySubDDFuel_congr :
    ∀ (f g : Nat) (l : List Char), l.length ≤ f → l.length ≤ g →
      pySubDDFuel f l = pySubDDFuel g l := by
  intro f
  induction f with
  | zero =>
    intro g l hf _
    have hl : l = [] := List.eq_nil_of_length_eq_zero (Nat.le_zero.mp hf)
    subst hl
    cases g <;> rfl
  | succ f2 ih =>
    intro g l hf hg
    cases l with
    | nil => cases g <;> rfl
    | cons c cs =>
      cases g with
      | zero => simp at hg
      | succ g2 =>
        show pySubDDFuel (f2 + 1) (c :: cs) = pySubDDFuel (g2 + 1) (c :: cs)
        unfold pySubDDFuel
        cases hm : ddMatch (c :: cs) with
        | some rest =>
          simp only [hm]
          have hr := ddMatch_length hm
          simp only [List.length_cons] at hr hf hg
          exact ih g2 rest (by omega) (by omega)
        | none =>
          simp only [hm]
          simp only [List.length_cons] at hf hg
          rw [ih g2 cs (by omega) (by omega)]

/-- A string with no digits-dash occurrence anywhere is left unchanged by
the scanner. -/
theorem pySubDDFuel_id_of_no_dd :
    ∀ (f : Nat) (l : List Char), l.length ≤ f → hasDDAux l = false →
      pySubDDFuel f l = l := by
  intro f
  induction f with
  | zero =>
    intro l hf _
    have hl : l = [] := List.eq_nil_of_length_eq_zero (Nat.le_zero.mp hf)
    subst hl
    rfl
  | succ f2 ih =>
    intro l hf hdd
    cases l with
    | nil => rfl
    | cons c cs =>
      unfold pySubDDFuel
      unfold hasDDAux at hdd
      cases hm : ddMatch (c :: cs) with
      | some rest => rw [hm] at hdd; simp at hdd
      | none =>
        rw [hm] at hdd
        simp at hdd
        simp only [hm, List.length_cons] at hf ⊢
        rw [ih cs (by omega) hdd]

/-- For an all-digit run followed by a dash, `takeWhile` and `dropWhile`
split exactly at the dash. -/
theorem digits_takeWhile (ds rest : List Char)
    (hdig : ds.all Char.isDigit = true) :
    (ds ++ '-' :: rest).takeWhile Char.isDigit = ds ∧
    (ds ++ '-' :: rest).dropWhile Char.isDigit = '-' :: rest := by
  induction ds with
  | nil =>
    have hd : Char.isDigit '-' = false := by decide
    constructor
    · simp [List.takeWhile_cons, hd]
    · simp [List.dropWhile_cons, hd]
  | cons d ds2 ih =>
    simp only [List.all_cons, Bool.and_eq_true] at hdig
    have hrec := ih hdig.2
    constructor
    · simp [List.takeWhile_cons, hdig.1, hrec.1]
    · simp [List.dropWhile_cons, hdig.1, hrec.2]

/-- The anchored digits-dash pattern matches a nonempty digit run followed
by a dash and consumes exactly through the dash. -/
theorem ddMatch_digits (ds rest : List Char) (hne : ds ≠ [])
    (hdig : ds.all Char.isDigit = true) :
    ddMatch (ds ++ '-' :: rest) = some rest := by
  obtain ⟨hT, hD⟩ := digits_takeWhile ds rest hdig
  unfold ddMatch
  rw [hT, hD]
  simp [hne]

/-- Unrolling one step of the scanner at a successful anchored match. -/
theorem pySubDDFuel_step (f : Nat) (c : Char) (cs rest : List Char)
    (hm : ddMatch (c :: cs) = some rest) :
    pySubDDFuel (f + 1) (c :: cs) = pySubDDFuel f rest := by
  conv_lhs => unfold pySubDDFuel
  rw [hm]

/-- Removing digits-dash occurrences from a digit-run-dash prefix followed
by anything removes the full prefix and continues on the remainder. -/
theorem pySubDD_digits_head (ds rest : List Char) (hne : ds ≠ [])
    (hdig : ds.all Char.isDigit = true) :
    pySubDD (ds ++ '-' :: rest) = pySubDD rest := by
  cases ds with
  | nil => exact absurd rfl hne
  | cons d ds2 =>
    have hm : ddMatch (d :: (ds2 ++ '-' :: rest)) = some rest := by
      have := ddMatch_digits (d :: ds2) rest hne hdig
      simpa using this
    show pySubDD (d :: (ds2 ++ '-' :: rest)) = pySubDD rest
    unfold pySubDD
    simp only [List.length_cons]
    rw [pySubDDFuel_step _ _ _ _ hm]
    apply pySubDDFuel_congr
    · have : (ds2 ++ '-' :: rest).length = ds2.length + (rest.length + 1) := by
        simp [List.length_append]
      omega
    · exact Nat.le_refl _

/-- A nonempty string has positive length. -/
theorem string_length_pos {a : String} (h : a ≠ "") : 0 < a.length := by
  cases a with
  | mk d =>
    cases d with
    | nil => exact absurd rfl h
    | cons c cs =>
      show 0 < (String.mk (c :: cs)).length
      simp [String.length]

/-- Joining a nonempty list of nonempty strings yields a nonempty string. -/
theorem pyJoin_ne_empty (sep : String) :
    ∀ (l : List String), l ≠ [] → (∀ x ∈ l, x ≠ "") → pyJoin sep l ≠ "" := by
  intro l
  induction l with
  | nil => intro h _; exact absurd rfl h
  | cons a t ih =>
    intro _ hall
    cases t with
    | nil => simpa [pyJoin] using hall a (by simp)
    | cons b t2 =>
      have ha : a ≠ "" := hall a (by simp)
      have hlen : 0 < a.length := string_length_pos ha
      intro hcontra
      have hl := congrArg String.length hcontra
      rw [show pyJoin sep (a :: b :: t2) = a ++ sep ++ pyJoin sep (b :: t2) from rfl]
        at hl
      simp [String.length_append] at hl
      omega

/-- Filtering the truthy values out of optional slot reads agrees with
defaulting each slot to the empty string first and filtering. -/
theorem filterMap_getD_filter (g : Nat → Option String) :
    ∀ (l : List Nat),
      ((l.filterMap g).filter fun t => t != "") =
      ((l.map fun p => (g p).getD "").filter fun t => t != "") := by
  intro l
  induction l with
  | nil => rfl
  | cons p t ih =>
    cases hg : g p with
    | none => simp [List.filterMap_cons, hg, ih]
    | some s => simp [List.filterMap_cons, List.filter_cons, hg, ih]

/-- The seed is a lower bound of a left max fold. -/
theorem le_foldl_max : ∀ (t : List Nat) (a : Nat), a ≤ t.foldl Nat.max a := by
  intro t
  induction t with
  | nil => intro a; exact Nat.le_refl a
  | cons b t2 ih =>
    intro a
    exact Nat.le_trans (Nat.le_max_left a b) (ih (Nat.max a b))

/-- A left max fold returns its seed or a member of the list. -/
theorem foldl_max_mem :
    ∀ (t : List Nat) (a : Nat), t.foldl Nat.max a = a ∨ t.foldl Nat.max a ∈ t := by
  intro t
  induction t with
  | nil => intro a; exact Or.inl rfl
  | cons b t2 ih =>
    intro a
    rcases ih (Nat.max a b) with h | h
    · rcases Nat.le_total a b with hab | hab
      · right
        rw [show (b :: t2).foldl Nat.max a = t2.foldl Nat.max (Nat.max a b) from rfl, h]
        simp [Nat.max_eq_right hab]
      · left
        rw [show (b :: t2).foldl Nat.max a = t2.foldl Nat.max (Nat.max a b) from rfl, h]
        simp [Nat.max_eq_left hab]
    · right
      rw [show (b :: t2).foldl Nat.max a = t2.foldl Nat.max (Nat.max a b) from rfl]
      simp [h]

/-- Every member of the list is bounded by a left max fold over it. -/
theorem mem_le_foldl_max :
    ∀ (t : List Nat) (a x : Nat), x ∈ t → x ≤ t.foldl Nat.max a := by
  intro t
  induction t with
  | nil => intro a x hx; simp at hx
  | cons b t2 ih =>
    intro a x hx
    rcases List.mem_cons.mp hx with h | h
    · subst h
      exact Nat.le_trans (Nat.le_max_right a x) (le_foldl_max t2 (Nat.max a x))
    · exact ih (Nat.max a b) x h


/-- Extraction applied to a successful page body. -/
def exOf (h : Html) : String := extract_content_from_html (some h)

/-- The slot array after all tasks completed does not depend on the
completion order: each slot holds the extracted text of its own page if that
page was dispatched and fetched, and stays untouched otherwise.  The
hypothesis on the initial slots says a slot is unwritten or already holds
its final value; the pages of the order are positive as page numbering
starts at one. -/
theorem writeSlots_eq (fetch : Nat → Option Html) :
    ∀ (order : List Nat) (s : Nat → Option String),
      (∀ j, s j = none ∨ s j = (fetch (j + 1)).map exOf) →
      (∀ p ∈ order, 1 ≤ p) →
      ∀ j, writeSlots fetch order s j =
        if j + 1 ∈ order then (fetch (j + 1)).map exOf else s j := by
  intro order
  induction order with
  | nil =>
    intro s _ _ j
    simp [writeSlots]
  | cons p rest ih =>
    intro s hs hpos j
    have hp1 : 1 ≤ p := hpos p (by simp)
    have hposr : ∀ q ∈ rest, 1 ≤ q := fun q hq => hpos q (by simp [hq])
    cases hf : fetch p with
    | some h =>
      have hs2 : ∀ j2,
          (if j2 = p - 1 then some (extract_content_from_html (some h)) else s j2)
            = none ∨
          (if j2 = p - 1 then some (extract_content_from_html (some h)) else s j2)
            = (fetch (j2 + 1)).map exOf := by
        intro j2
        by_cases hj2 : j2 = p - 1
        · right
          have hpj : j2 + 1 = p := by omega
          rw [if_pos hj2, hpj, hf]
          rfl
        · rw [if_neg hj2]
          exact hs j2
      have hrec := ih _ hs2 hposr j
      show writeSlots fetch (p :: rest) s j = _
      simp only [writeSlots, hf]
      rw [hrec]
      by_cases hjr : j + 1 ∈ rest
      · simp [hjr, List.mem_cons]
      · simp only [hjr, if_false]
        by_cases hjp : j = p - 1
        · have hj1 : j + 1 = p := by omega
          have hpp : p - 1 + 1 = p := by omega
          simp [hjp, List.mem_cons, hpp, hf, exOf]
        · have hj1 : j + 1 ≠ p := by omega
          simp [hjp, List.mem_cons, hj1, hjr]
    | none =>
      have hrec := ih s hs hposr j
      show writeSlots fetch (p :: rest) s j = _
      simp only [writeSlots, hf]
      rw [hrec]
      by_cases hjr : j + 1 ∈ rest
      · simp [hjr, List.mem_cons]
      · simp only [hjr, if_false]
        by_cases hj1 : j + 1 = p
        · rcases hs j with h0 | h0
          · rw [h0]
            simp [List.mem_cons, hj1, hf]
          · rw [h0]
            simp [List.mem_cons, hj1]
        · simp [List.mem_cons, hj1, hjr]

/-- Completion-order independence of the assembled book: whenever the first
page was fetched and the dispatched tasks are exactly pages one through the
resolved total in any completion order, the result is the ascending-order
assembly. -/
theorem extract_book_eq (fetch : Nat → Option Html) (order : List Nat)
    (h1 : Html) (hf : fetch 1 = some h1)
    (hperm : order.Perm (List.range' 1 (get_total_pages h1))) :
    extract_book fetch order = some (ascendingAssembly fetch (get_total_pages h1)) := by
  have hpos : ∀ p ∈ order, 1 ≤ p := by
    intro p hp
    have := (hperm.mem_iff).1 hp
    exact (List.mem_range'_1.mp this).1
  have hw := writeSlots_eq fetch order (fun _ => none) (fun _ => Or.inl rfl) hpos
  simp only [extract_book, hf]
  congr 1
  have hmap : (List.range (get_total_pages h1)).map (writeSlots fetch order fun _ => none) =
      (List.range (get_total_pages h1)).map (fun j => (fetch (j + 1)).map exOf) := by
    apply List.map_congr_left
    intro j hj
    rw [hw j]
    have hjlt : j < get_total_pages h1 := List.mem_range.mp hj
    have hmem : j + 1 ∈ order := by
      rw [hperm.mem_iff]
      exact List.mem_range'_1.mpr ⟨by omega, by omega⟩
    simp [hmem]
  rw [hmap, List.filterMap_map]
  have hid : (id ∘ fun j => (fetch (j + 1)).map exOf) = fun j => (fetch (j + 1)).map exOf :=
    Function.id_comp _
  rw [hid, filterMap_getD_filter]
  unfold ascendingAssembly
  congr 1
  rw [List.range'_eq_map_range, List.map_map]
  congr 1
  apply List.map_congr_left
  intro j _
  show ((fetch (j + 1)).map exOf).getD "" = pageText fetch (1 + j)
  unfold pageText exOf
  rw [Nat.add_comm 1 j]

/-- Combined invariants of the retry loop: the attempt count is bounded by
the remaining iterations, a success takes at least one attempt, exhaustion
takes all of them, and the sleeps are exactly the linear backoff values of
the failed attempts in order (every attempt before the success, or every
attempt when exhausted). -/
theorem get_page_go_spec (oc : Nat → AttemptOutcome) (d : ℚ) :
    ∀ (rem att : Nat),
      (get_page_go oc d att rem).2.1 ≤ rem ∧
      ((get_page_go oc d att rem).1.isSome = true →
        1 ≤ (get_page_go oc d att rem).2.1) ∧
      ((get_page_go oc d att rem).1 = none →
        (get_page_go oc d att rem).2.1 = rem) ∧
      ((get_page_go oc d att rem).1.isSome = true →
        (get_page_go oc d att rem).2.2 =
          (List.range' att ((get_page_go oc d att rem).2.1 - 1)).map
            fun k => d * ((k : Rat) + 1)) ∧
      ((get_page_go oc d att rem).1 = none →
        (get_page_go oc d att rem).2.2 =
          (List.range' att (get_page_go oc d att rem).2.1).map
            fun k => d * ((k : Rat) + 1)) := by
  intro rem
  induction rem with
  | zero =>
    intro att
    refine ⟨Nat.le_refl 0, ?_, fun _ => rfl, ?_, fun _ => rfl⟩
    · intro h
      simp [get_page_go] at h
    · intro h
      simp [get_page_go] at h
  | succ rem2 ih =>
    intro att
    obtain ⟨ih1, ih2, ih3, ih4, ih5⟩ := ih (att + 1)
    cases hoc : oc att with
    | httpStatus code body =>
      by_cases hc : code = 200
      · have h1 : (get_page_go oc d att (rem2 + 1)).1 = some body := by
          simp [get_page_go, hoc, hc]
        have h2 : (get_page_go oc d att (rem2 + 1)).2.1 = 1 := by
          simp [get_page_go, hoc, hc]
        have h3 : (get_page_go oc d att (rem2 + 1)).2.2 = [] := by
          simp [get_page_go, hoc, hc]
        refine ⟨by omega, fun _ => by omega, ?_, ?_, ?_⟩
        · intro hnone
          rw [h1] at hnone
          exact Option.noConfusion hnone
        · intro _
          rw [h3, h2]
          simp
        · intro hnone
          rw [h1] at hnone
          exact Option.noConfusion hnone
      · have h1 : (get_page_go oc d att (rem2 + 1)).1 =
            (get_page_go oc d (att + 1) rem2).1 := by
          simp [get_page_go, hoc, hc]
        have h2 : (get_page_go oc d att (rem2 + 1)).2.1 =
            (get_page_go oc d (att + 1) rem2).2.1 + 1 := by
          simp [get_page_go, hoc, hc]
        have h3 : (get_page_go oc d att (rem2 + 1)).2.2 =
            d * ((att : Rat) + 1) :: (get_page_go oc d (att + 1) rem2).2.2 := by
          simp [get_page_go, hoc, hc]
        refine ⟨by omega, fun _ => by omega, ?_, ?_, ?_⟩
        · intro hnone
          rw [h1] at hnone
          have := ih3 hnone
          omega
        · intro hsome
          rw [h1] at hsome
          have hpos := ih2 hsome
          rw [h3, h2, ih4 hsome]
          rw [show (get_page_go oc d (att + 1) rem2).2.1 + 1 - 1 =
            ((get_page_go oc d (att + 1) rem2).2.1 - 1) + 1 from by omega]
          rw [List.range'_succ]
          simp
        · intro hnone
          rw [h1] at hnone
          rw [h3, h2, ih5 hnone]
          rw [List.range'_succ]
          simp
    | transportError =>
      have h1 : (get_page_go oc d att (rem2 + 1)).1 =
          (get_page_go oc d (att + 1) rem2).1 := by
        simp [get_page_go, hoc]
      have h2 : (get_page_go oc d att (rem2 + 1)).2.1 =
          (get_page_go oc d (att + 1) rem2).2.1 + 1 := by
        simp [get_page_go, hoc]
      have h3 : (get_page_go oc d att (rem2 + 1)).2.2 =
          d * ((att : Rat) + 1) :: (get_page_go oc d (att + 1) rem2).2.2 := by
        simp [get_page_go, hoc]
      refine ⟨by omega, fun _ => by omega, ?_, ?_, ?_⟩
      · intro hnone
        rw [h1] at hnone
        have := ih3 hnone
        omega
      · intro hsome
        rw [h1] at hsome
        have hpos := ih2 hsome
        rw [h3, h2, ih4 hsome]
        rw [show (get_page_go oc d (att + 1) rem2).2.1 + 1 - 1 =
          ((get_page_go oc d (att + 1) rem2).2.1 - 1) + 1 from by omega]
        rw [List.range'_succ]
        simp
      · intro hnone
        rw [h1] at hnone
        rw [h3, h2, ih5 hnone]
        rw [List.range'_succ]
        simp

/-- When every attempt in the window fails, the retry loop runs all of its
iterations, sleeps the linear backoff after every one of them, and returns
no content. -/
theorem get_page_go_allfail (oc : Nat → AttemptOutcome) (d : ℚ) :
    ∀ (rem att : Nat),
      (∀ k, att ≤ k → k < att + rem → attemptFails (oc k) = true) →
      get_page_go oc d att rem =
        (none, rem, (List.range' att rem).map fun k => d * ((k : Rat) + 1)) := by
  intro rem
  induction rem with
  | zero =>
    intro att _
    simp [get_page_go]
  | succ rem2 ih =>
    intro att hfail
    have hait : attemptFails (oc att) = true :=
      hfail att (Nat.le_refl att) (by omega)
    have hrec := ih (att + 1) fun k hk1 hk2 => hfail k (by omega) (by omega)
    cases hoc : oc att with
    | httpStatus code body =>
      have hc : code ≠ 200 := by
        rw [hoc] at hait
        simpa [attemptFails] using hait
      simp only [get_page_go, hoc, hc, ite_false, if_neg]
      rw [hrec]
      rw [List.range'_succ]
      simp
    | transportError =>
      simp only [get_page_go, hoc]
      rw [hrec]
      rw [List.range'_succ]
      simp

/-- The retry loop returns a body exactly when some attempt in the window
responded with status 200 and that body, all earlier attempts in the window
having failed. -/
theorem get_page_go_some_iff (oc : Nat → AttemptOutcome) (d : ℚ) (b : String) :
    ∀ (rem att : Nat),
      (get_page_go oc d att rem).1 = some b ↔
        ∃ k, att ≤ k ∧ k < att + rem ∧ oc k = .httpStatus 200 b ∧
          ∀ j, att ≤ j → j < k → attemptFails (oc j) = true := by
  intro rem
  induction rem with
  | zero =>
    intro att
    constructor
    · intro h
      simp [get_page_go] at h
    · rintro ⟨k, h1, h2, _, _⟩
      omega
  | succ rem2 ih =>
    intro att
    cases hoc : oc att with
    | httpStatus code body =>
      by_cases hc : code = 200
      · have h1 : (get_page_go oc d att (rem2 + 1)).1 = some body := by
          simp [get_page_go, hoc, hc]
        rw [h1]
        constructor
        · intro h
          injection h with hb
          refine ⟨att, Nat.le_refl _, by omega, ?_, ?_⟩
          · rw [hoc, hb, hc]
          · intro j hj1 hj2
            omega
        · rintro ⟨k, hk1, hk2, hk3, hk4⟩
          by_cases hka : k = att
          · subst hka
            rw [hoc] at hk3
            injection hk3 with _ hb2
            rw [hb2]
          · have hjf : attemptFails (oc att) = true :=
              hk4 att (Nat.le_refl _) (by omega)
            rw [hoc] at hjf
            simp [attemptFails, hc] at hjf
      · have h1 : (get_page_go oc d att (rem2 + 1)).1 =
            (get_page_go oc d (att + 1) rem2).1 := by
          simp [get_page_go, hoc, hc]
        rw [h1, ih (att + 1)]
        constructor
        · rintro ⟨k, h1b, h2b, h3b, h4b⟩
          refine ⟨k, by omega, by omega, h3b, ?_⟩
          intro j hj1 hj2
          by_cases hja : j = att
          · subst hja
            rw [hoc]
            simp [attemptFails, hc]
          · exact h4b j (by omega) hj2
        · rintro ⟨k, h1b, h2b, h3b, h4b⟩
          have hka : k ≠ att := by
            intro he
            subst he
            rw [hoc] at h3b
            injection h3b with hcode _
            exact hc hcode
          refine ⟨k, by omega, by omega, h3b, ?_⟩
          intro j hj1 hj2
          exact h4b j (by omega) hj2
    | transportError =>
      have h1 : (get_page_go oc d att (rem2 + 1)).1 =
          (get_page_go oc d (att + 1) rem2).1 := by
        simp [get_page_go, hoc]
      rw [h1, ih (att + 1)]
      constructor
      · rintro ⟨k, h1b, h2b, h3b, h4b⟩
        refine ⟨k, by omega, by omega, h3b, ?_⟩
        intro j hj1 hj2
        by_cases hja : j = att
        · subst hja
          rw [hoc]
          rfl
        · exact h4b j (by omega) hj2
      · rintro ⟨k, h1b, h2b, h3b, h4b⟩
        have hka : k ≠ att := by
          intro he
          subst he
          rw [hoc] at h3b
          exact AttemptOutcome.noConfusion h3b
        refine ⟨k, by omega, by omega, h3b, ?_⟩
        intro j hj1 hj2
        exact h4b j (by omega) hj2

/-- Active count of a cons state. -/
theorem activeCount_cons (y : TaskSt) (l : List TaskSt) :
    activeCount (y :: l) = (if isActive y then 1 else 0) + activeCount l := by
  unfold activeCount
  rw [List.filter_cons]
  by_cases h : isActive y
  · simp [h]
    omega
  · simp [h]

/-- Overwriting one task status changes the active count by the difference
between the old and the new status. -/
theorem activeCount_set :
    ∀ (σ : List TaskSt) (i : Nat) (v w : TaskSt), σ[i]? = some w →
      activeCount (σ.set i v) + (if isActive w then 1 else 0) =
      activeCount σ + (if isActive v then 1 else 0) := by
  intro σ
  induction σ with
  | nil =>
    intro i v w h
    simp at h
  | cons x xs ih =>
    intro i v w h
    cases i with
    | zero =>
      rw [List.getElem?_cons_zero] at h
      injection h with h
      subst h
      rw [List.set_cons_zero, activeCount_cons, activeCount_cons]
      omega
    | succ i2 =>
      rw [List.getElem?_cons_succ] at h
      rw [List.set_cons_succ, activeCount_cons, activeCount_cons]
      have := ih i2 v w h
      omega

/-- Characterization of an enabled step of the admission-gate machine. -/
theorem semStep_char (conc : Nat) (A : Nat → Nat) (σ : List TaskSt)
    (e : SemEv) (σ2 : List TaskSt) (h : semStep conc A σ e = some σ2) :
    (∃ i, e = .acquire i ∧ σ[i]? = some .idle ∧ activeCount σ < conc ∧
      σ2 = σ.set i (.active 0)) ∨
    (∃ i k, e = .attempt i ∧ σ[i]? = some (.active k) ∧ k < A i ∧
      σ2 = σ.set i (.active (k + 1))) ∨
    (∃ i, e = .release i ∧ σ[i]? = some (.active (A i)) ∧
      σ2 = σ.set i .finished) := by
  cases e with
  | acquire i =>
    left
    simp only [semStep] at h
    cases hm : σ[i]? with
    | none =>
      rw [hm] at h
      exact Option.noConfusion h
    | some w =>
      rw [hm] at h
      cases w with
      | idle =>
        have h2 : (if activeCount σ < conc then
            some (σ.set i (TaskSt.active 0)) else none) = some σ2 := h
        by_cases hlt : activeCount σ < conc
        · rw [if_pos hlt] at h2
          injection h2 with h2
          exact ⟨i, rfl, hm, hlt, h2.symm⟩
        · rw [if_neg hlt] at h2
          exact Option.noConfusion h2
      | active k => exact Option.noConfusion h
      | finished => exact Option.noConfusion h
  | attempt i =>
    right; left
    simp only [semStep] at h
    cases hm : σ[i]? with
    | none =>
      rw [hm] at h
      exact Option.noConfusion h
    | some w =>
      rw [hm] at h
      cases w with
      | idle => exact Option.noConfusion h
      | active k =>
        have h2 : (if k < A i then
            some (σ.set i (TaskSt.active (k + 1))) else none) = some σ2 := h
        by_cases hlt : k < A i
        · rw [if_pos hlt] at h2
          injection h2 with h2
          exact ⟨i, k, rfl, hm, hlt, h2.symm⟩
        · rw [if_neg hlt] at h2
          exact Option.noConfusion h2
      | finished => exact Option.noConfusion h
  | release i =>
    right; right
    simp only [semStep] at h
    cases hm : σ[i]? with
    | none =>
      rw [hm] at h
      exact Option.noConfusion h
    | some w =>
      rw [hm] at h
      cases w with
      | idle => exact Option.noConfusion h
      | active k =>
        have h2 : (if k = A i then
            some (σ.set i TaskSt.finished) else none) = some σ2 := h
        by_cases hk : k = A i
        · rw [if_pos hk] at h2
          injection h2 with h2
          subst hk
          exact ⟨i, rfl, hm, h2.symm⟩
        · rw [if_neg hk] at h2
          exact Option.noConfusion h2
      | finished => exact Option.noConfusion h

/-- One enabled step keeps the active count within the gate capacity. -/
theorem semStep_inv (conc : Nat) (A : Nat → Nat) (σ : List TaskSt)
    (e : SemEv) (σ2 : List TaskSt) (h : semStep conc A σ e = some σ2)
    (hc : activeCount σ ≤ conc) : activeCount σ2 ≤ conc := by
  rcases semStep_char conc A σ e σ2 h with
    ⟨i, _, hm, hlt, hset⟩ | ⟨i, k, _, hm, _, hset⟩ | ⟨i, _, hm, hset⟩
  · subst hset
    have := activeCount_set σ i (.active 0) .idle hm
    simp [isActive] at this
    omega
  · subst hset
    have := activeCount_set σ i (.active (k + 1)) (.active k) hm
    simp [isActive] at this
    omega
  · subst hset
    have := activeCount_set σ i .finished (.active (A i)) hm
    simp [isActive] at this
    omega

/-- One enabled step preserves well-formedness of the task statuses. -/
theorem semStep_wf (conc : Nat) (A : Nat → Nat) (σ : List TaskSt)
    (e : SemEv) (σ2 : List TaskSt) (h : semStep conc A σ e = some σ2)
    (hw : wfSt A σ) : wfSt A σ2 := by
  rcases semStep_char conc A σ e σ2 h with
    ⟨i, _, hm, _, hset⟩ | ⟨i, k, _, hm, hlt, hset⟩ | ⟨i, _, hm, hset⟩ <;>
    subst hset <;>
    intro j k2 hj <;>
    by_cases hij : j = i
  · subst hij
    have hlen : j < σ.length := (List.getElem?_eq_some.mp hm).1
    rw [List.getElem?_set_self hlen] at hj
    injection hj with hj
    injection hj with hj
    omega
  · rw [List.getElem?_set_ne (fun he => hij he.symm)] at hj
    exact hw j k2 hj
  · subst hij
    have hlen : j < σ.length := (List.getElem?_eq_some.mp hm).1
    rw [List.getElem?_set_self hlen] at hj
    injection hj with hj
    injection hj with hj
    omega
  · rw [List.getElem?_set_ne (fun he => hij he.symm)] at hj
    exact hw j k2 hj
  · subst hij
    have hlen : j < σ.length := (List.getElem?_eq_some.mp hm).1
    rw [List.getElem?_set_self hlen] at hj
    exact absurd hj (by simp)
  · rw [List.getElem?_set_ne (fun he => hij he.symm)] at hj
    exact hw j k2 hj

/-- Every run of the machine keeps the active count within the gate
capacity. -/
theorem semExec_inv (conc : Nat) (A : Nat → Nat) :
    ∀ (tr : List SemEv) (σ σ2 : List TaskSt),
      semExec conc A σ tr = some σ2 → activeCount σ ≤ conc →
      activeCount σ2 ≤ conc := by
  intro tr
  induction tr with
  | nil =>
    intro σ σ2 h hc
    injection h with h
    subst h
    exact hc
  | cons e es ih =>
    intro σ σ2 h hc
    unfold semExec at h
    cases hst : semStep conc A σ e with
    | none => rw [hst] at h; exact Option.noConfusion h
    | some σm =>
      rw [hst] at h
      exact ih σm σ2 h (semStep_inv conc A σ e σm hst hc)

/-- Every run of the machine preserves well-formedness. -/
theorem semExec_wf (conc : Nat) (A : Nat → Nat) :
    ∀ (tr : List SemEv) (σ σ2 : List TaskSt),
      semExec conc A σ tr = some σ2 → wfSt A σ → wfSt A σ2 := by
  intro tr
  induction tr with
  | nil =>
    intro σ σ2 h hw
    injection h with h
    subst h
    exact hw
  | cons e es ih =>
    intro σ σ2 h hw
    unfold semExec at h
    cases hst : semStep conc A σ e with
    | none => rw [hst] at h; exact Option.noConfusion h
    | some σm =>
      rw [hst] at h
      exact ih σm σ2 h (semStep_wf conc A σ e σm hst hw)

/-- Counting one event at the head of a trace. -/
theorem countEv_cons (x e : SemEv) (tr : List SemEv) :
    countEv (x :: tr) e = (if x = e then 1 else 0) + countEv tr e := by
  unfold countEv
  rw [List.filter_cons]
  by_cases h : x = e
  · simp [h]
    omega
  · simp [h]

/-- Event counts of a run are reflected in the final task statuses: relative
to the starting status of each task, the acquire, attempt and release
counters of the trace advance exactly with the status transitions. -/
theorem semExec_counts (conc : Nat) (A : Nat → Nat) :
    ∀ (tr : List SemEv) (σ σ2 : List TaskSt),
      semExec conc A σ tr = some σ2 →
      ∀ (i : Nat) (w2 : TaskSt), σ2[i]? = some w2 →
        ∃ w, σ[i]? = some w ∧
          acqOf w2 = acqOf w + countEv tr (.acquire i) ∧
          attOf (A i) w2 = attOf (A i) w + countEv tr (.attempt i) ∧
          relOf w2 = relOf w + countEv tr (.release i) := by
  intro tr
  induction tr with
  | nil =>
    intro σ σ2 h i w2 hw2
    injection h with h
    subst h
    exact ⟨w2, hw2, by simp [countEv], by simp [countEv], by simp [countEv]⟩
  | cons e es ih =>
    intro σ σ2 h i w2 hw2
    unfold semExec at h
    cases hst : semStep conc A σ e with
    | none => rw [hst] at h; exact Option.noConfusion h
    | some σm =>
      rw [hst] at h
      obtain ⟨wm, hwm, hm1, hm2, hm3⟩ := ih σm σ2 h i w2 hw2
      rcases semStep_char conc A σ e σm hst with
        ⟨j, he, hj, _, hset⟩ | ⟨j, k, he, hj, _, hset⟩ | ⟨j, he, hj, hset⟩
      · subst he
        subst hset
        by_cases hij : i = j
        · subst hij
          have hlen : i < σ.length := (List.getElem?_eq_some.mp hj).1
          rw [List.getElem?_set_self hlen] at hwm
          injection hwm with hwm
          subst hwm
          refine ⟨.idle, hj, ?_, ?_, ?_⟩
          · rw [countEv_cons]
            simp [acqOf] at hm1 ⊢
            omega
          · rw [countEv_cons]
            simp [attOf] at hm2 ⊢
            omega
          · rw [countEv_cons]
            simp [relOf] at hm3 ⊢
            omega
        · have hji : j ≠ i := fun he2 => hij he2.symm
          rw [List.getElem?_set_ne hji] at hwm
          refine ⟨wm, hwm, ?_, ?_, ?_⟩
          · rw [countEv_cons]
            simp [hji]
            omega
          · rw [countEv_cons]
            simp
            omega
          · rw [countEv_cons]
            simp
            omega
      · subst he
        subst hset
        by_cases hij : i = j
        · subst hij
          have hlen : i < σ.length := (List.getElem?_eq_some.mp hj).1
          rw [List.getElem?_set_self hlen] at hwm
          injection hwm with hwm
          subst hwm
          refine ⟨.active k, hj, ?_, ?_, ?_⟩
          · rw [countEv_cons]
            simp [acqOf] at hm1 ⊢
            omega
          · rw [countEv_cons]
            simp [attOf] at hm2 ⊢
            omega
          · rw [countEv_cons]
            simp [relOf] at hm3 ⊢
            omega
        · have hji : j ≠ i := fun he2 => hij he2.symm
          rw [List.getElem?_set_ne hji] at hwm
          refine ⟨wm, hwm, ?_, ?_, ?_⟩
          · rw [countEv_cons]
            simp
            omega
          · rw [countEv_cons]
            simp [hji]
            omega
          · rw [countEv_cons]
            simp
            omega
      · subst he
        subst hset
        by_cases hij : i = j
        · subst hij
          have hlen : i < σ.length := (List.getElem?_eq_some.mp hj).1
          rw [List.getElem?_set_self hlen] at hwm
          injection hwm with hwm
          subst hwm
          refine ⟨.active (A i), hj, ?_, ?_, ?_⟩
          · rw [countEv_cons]
            simp [acqOf] at hm1 ⊢
            omega
          · rw [countEv_cons]
            simp [attOf] at hm2 ⊢
            omega
          · rw [countEv_cons]
            simp [relOf] at hm3 ⊢
            omega
        · have hji : j ≠ i := fun he2 => hij he2.symm
          rw [List.getElem?_set_ne hji] at hwm
          refine ⟨wm, hwm, ?_, ?_, ?_⟩
          · rw [countEv_cons]
            simp
            omega
          · rw [countEv_cons]
            simp
            omega
          · rw [countEv_cons]
            simp [hji]
            omega

/-- The filtered slot list is empty exactly when every page contributed no
text. -/
theorem assembly_filter_nil_iff (fetch : Nat → Option Html) (total : Nat) :
    ((List.range' 1 total).map (pageText fetch)).filter (fun t => t != "") = [] ↔
    ∀ p ∈ List.range' 1 total, pageText fetch p = "" := by
  rw [List.filter_eq_nil_iff]
  constructor
  · intro hall p hp
    have := hall (pageText fetch p) (List.mem_map_of_mem _ hp)
    simpa using this
  · intro hall t ht
    obtain ⟨p, hp, hte⟩ := List.mem_map.mp ht
    subst hte
    simpa using hall p hp

/-- The ascending assembly is the empty string exactly when every page
contributed no text. -/
theorem ascendingAssembly_empty_iff (fetch : Nat → Option Html) (total : Nat) :
    ascendingAssembly fetch total = "" ↔
    ∀ p ∈ List.range' 1 total, pageText fetch p = "" := by
  unfold ascendingAssembly
  constructor
  · intro h
    apply (assembly_filter_nil_iff fetch total).mp
    by_contra hne
    refine pyJoin_ne_empty pageSep _ hne ?_ h
    intro x hx
    have := (List.mem_filter.mp hx).2
    simpa using this
  · intro h
    rw [(assembly_filter_nil_iff fetch total).mpr h]
    rfl

/-- Claim C1: for every run in which assembly completes (first page fetched,
then one task per page of 1..total finishing in an arbitrary completion
order), the final text is the concatenation in ascending page-number order
of exactly the non-empty extracted page texts, joined by the fixed
cross-page separator, and the result does not depend on the completion
order. -/
theorem extract_book_assembles_in_ascending_page_order
    (fetch : Nat → Option Html) (order : List Nat) (h1 : Html)
    (hf : fetch 1 = some h1)
    (hperm : order.Perm (List.range' 1 (get_total_pages h1))) :
    extract_book fetch order =
      some (ascendingAssembly fetch (get_total_pages h1)) ∧
    ∀ order2, order2.Perm (List.range' 1 (get_total_pages h1)) →
      extract_book fetch order2 = extract_book fetch order := by
  refine ⟨extract_book_eq fetch order h1 hf hperm, ?_⟩
  intro order2 hp2
  rw [extract_book_eq fetch order2 h1 hf hp2,
    extract_book_eq fetch order h1 hf hperm]

/-- Witness for C1: a three-page book whose tasks complete in the order
3, 1, 2 still assembles page one, separator, page two, separator, page
three, and agrees with the in-order completion. -/
theorem extract_book_assembly_witness :
    extract_book fetch3 [3, 1, 2] =
      some ("pageone" ++ pageSep ++ "pagetwo" ++ pageSep ++ "pagethree") ∧
    extract_book fetch3 [3, 1, 2] = extract_book fetch3 [1, 2, 3] := by
  have h := extract_book_assembles_in_ascending_page_order fetch3 [3, 1, 2]
    html3a rfl (by decide)
  constructor
  · rw [h.1]
    decide
  · exact (h.2 [1, 2, 3] (by decide)).symm

/-- Claim C5 (amended): the public interface reports failure exactly when
the first-page fetch fails (pagination is then unobtainable) or when no
page yields non-empty extracted text — in particular a run where every
fetch succeeds but every extraction is empty is also reported as failure —
and any run with at least one non-empty extracted page text is returned as
a success carrying the partial ascending assembly. -/
theorem extract_and_save_failure_characterization
    (fetch : Nat → Option Html) (order : List Nat) :
    (fetch 1 = none → extract_and_save fetch order = (false, none)) ∧
    (∀ h1, fetch 1 = some h1 →
      order.Perm (List.range' 1 (get_total_pages h1)) →
      (((extract_and_save fetch order).1 = false ↔
          ∀ p ∈ List.range' 1 (get_total_pages h1), pageText fetch p = "") ∧
        ((∃ p ∈ List.range' 1 (get_total_pages h1), pageText fetch p ≠ "") →
          extract_and_save fetch order =
            (true, some (ascendingAssembly fetch (get_total_pages h1)))))) := by
  constructor
  · intro hf
    unfold extract_and_save extract_book
    rw [hf]
  · intro h1 hf hperm
    have hb := extract_book_eq fetch order h1 hf hperm
    constructor
    · simp only [extract_and_save, hb]
      by_cases hemp : ascendingAssembly fetch (get_total_pages h1) = ""
      · rw [if_pos hemp]
        simp only [true_iff]
        exact (ascendingAssembly_empty_iff _ _).mp hemp
      · rw [if_neg hemp]
        simp only [save_to_file, if_neg hemp]
        constructor
        · intro hh
          simp at hh
        · intro hall
          exact absurd ((ascendingAssembly_empty_iff _ _).mpr hall) hemp
    · rintro ⟨p, hp, hne⟩
      have hemp : ascendingAssembly fetch (get_total_pages h1) ≠ "" := by
        intro h0
        exact hne ((ascendingAssembly_empty_iff _ _).mp h0 p hp)
      simp only [extract_and_save, hb, save_to_file, if_neg hemp]

/-- Witness for C5: a one-page book with content saves successfully. -/
theorem extract_and_save_success_witness :
    extract_and_save (fun _ => some htmlOne) [1] =
      (true, some (ascendingAssembly (fun _ => some htmlOne)
        (get_total_pages htmlOne))) := by
  have h := (extract_and_save_failure_characterization
    (fun _ => some htmlOne) [1]).2 htmlOne rfl (by decide)
  exact h.2 ⟨1, by decide, by decide⟩

/-- Counterexample to C5 as stated: a run in which pagination resolves
(the first-page fetch succeeds) and no page fetch fails still yields the
failure outcome, because the single page extracts to the empty string. -/
theorem extract_and_save_fails_despite_no_page_failure :
    extract_and_save (fun _ => some htmlBlank1) [1] = (false, none) ∧
    (fun _ => some htmlBlank1 : Nat → Option Html) 1 = some htmlBlank1 ∧
    (∀ p ∈ List.range' 1 (get_total_pages htmlBlank1),
      (fun _ => some htmlBlank1 : Nat → Option Html) p ≠ none) := by
  decide

/-- Claim C10: when every page fetch succeeds but every extraction yields
the empty string, the book extracts to the empty string, the public
interface reports failure and writes nothing, and the observable outcome
coincides with that of a run whose first-page fetch failed (a total fetch
failure): both are falsy at `extract_book` and identical at
`extract_and_save`. -/
theorem empty_extraction_indistinguishable_from_total_failure
    (fetch : Nat → Option Html) (order : List Nat) (h1 : Html)
    (hf : fetch 1 = some h1)
    (hperm : order.Perm (List.range' 1 (get_total_pages h1)))
    (hall : ∀ p ∈ List.range' 1 (get_total_pages h1),
      ∃ hp, fetch p = some hp ∧ extract_content_from_html (some hp) = "") :
    extract_book fetch order = some "" ∧
    extract_and_save fetch order = (false, none) ∧
    pyTruthy (extract_book fetch order) = false ∧
    ∀ (fetchF : Nat → Option Html) (orderF : List Nat), fetchF 1 = none →
      extract_book fetchF orderF = none ∧
      extract_and_save fetchF orderF = extract_and_save fetch order ∧
      pyTruthy (extract_book fetchF orderF) = pyTruthy (extract_book fetch order) := by
  have hempty : ∀ p ∈ List.range' 1 (get_total_pages h1), pageText fetch p = "" := by
    intro p hp
    obtain ⟨hp2, hfp, hex⟩ := hall p hp
    unfold pageText
    rw [hfp]
    simpa [exOf] using hex
  have hb := extract_book_eq fetch order h1 hf hperm
  have hA : ascendingAssembly fetch (get_total_pages h1) = "" :=
    (ascendingAssembly_empty_iff _ _).mpr hempty
  have h1b : extract_book fetch order = some "" := by rw [hb, hA]
  have h2b : extract_and_save fetch order = (false, none) := by
    simp [extract_and_save, h1b]
  refine ⟨h1b, h2b, by rw [h1b]; rfl, ?_⟩
  intro fetchF orderF hfF
  have hFb : extract_book fetchF orderF = none := by
    unfold extract_book
    rw [hfF]
  refine ⟨hFb, ?_, ?_⟩
  · rw [h2b]
    simp [extract_and_save, hFb]
  · rw [hFb, h1b]
    rfl

/-- Witness for C10: a two-page book whose pages fetch but extract to
nothing is reported exactly like a total failure. -/
theorem empty_extraction_witness :
    extract_book (fun _ => some htmlBlank2) [2, 1] = some "" ∧
    extract_and_save (fun _ => some htmlBlank2) [2, 1] = (false, none) := by
  have h := empty_extraction_indistinguishable_from_total_failure
    (fun _ => some htmlBlank2) [2, 1] htmlBlank2 rfl (by decide)
    (fun p _ => ⟨htmlBlank2, rfl, by decide⟩)
  exact ⟨h.1, h.2.1⟩

/-- Claim C2: `get_page` returns the requested page number, performs at
most `max_retries` attempts, sleeps `delay * (attempt + 1)` after each
failed attempt (the sleeps are exactly the linear backoff values of the
failed attempts, in order), and when every attempt fails it runs all
`max_retries` attempts and returns the page paired with no content rather
than raising. -/
theorem get_page_retry_backoff_policy (oc : Nat → AttemptOutcome)
    (maxRetries : Nat) (d : ℚ) (page : Nat) :
    (get_page oc maxRetries d page).1 = page ∧
    get_page_attempts oc d maxRetries ≤ maxRetries ∧
    ((get_page oc maxRetries d page).2.isSome = true →
      get_page_sleeps oc d maxRetries =
        (List.range (get_page_attempts oc d maxRetries - 1)).map
          fun k => d * ((k : Rat) + 1)) ∧
    ((get_page oc maxRetries d page).2 = none →
      get_page_sleeps oc d maxRetries =
        (List.range (get_page_attempts oc d maxRetries)).map
          fun k => d * ((k : Rat) + 1)) ∧
    ((∀ k, k < maxRetries → attemptFails (oc k) = true) →
      get_page oc maxRetries d page = (page, none) ∧
      get_page_attempts oc d maxRetries = maxRetries ∧
      get_page_sleeps oc d maxRetries =
        (List.range maxRetries).map fun k => d * ((k : Rat) + 1)) := by
  refine ⟨rfl, (get_page_go_spec oc d maxRetries 0).1, ?_, ?_, ?_⟩
  · intro hs
    show (get_page_go oc d 0 maxRetries).2.2 = _
    rw [(get_page_go_spec oc d maxRetries 0).2.2.2.1 hs, ← List.range_eq_range']
    rfl
  · intro hn
    show (get_page_go oc d 0 maxRetries).2.2 = _
    rw [(get_page_go_spec oc d maxRetries 0).2.2.2.2 hn, ← List.range_eq_range']
    rfl
  · intro hfail
    have hgo := get_page_go_allfail oc d maxRetries 0
      (fun k _ hk => hfail k (by omega))
    refine ⟨?_, ?_, ?_⟩
    · show (page, (get_page_go oc d 0 maxRetries).1) = (page, none)
      rw [hgo]
    · show (get_page_go oc d 0 maxRetries).2.1 = maxRetries
      rw [hgo]
    · show (get_page_go oc d 0 maxRetries).2.2 = _
      rw [hgo, ← List.range_eq_range']

/-- Witness for C2: two transport errors with delay one exhaust both
attempts, sleep one then two, and return the page with no content. -/
theorem get_page_retry_backoff_policy_witness :
    get_page (fun _ => AttemptOutcome.transportError) 2 1 5 = (5, none) ∧
    get_page_attempts (fun _ => AttemptOutcome.transportError) 1 2 = 2 ∧
    get_page_sleeps (fun _ => AttemptOutcome.transportError) 1 2 =
      (List.range 2).map fun k => (1 : Rat) * ((k : Rat) + 1) := by
  have h := (get_page_retry_backoff_policy
    (fun _ => AttemptOutcome.transportError) 2 1 5).2.2.2.2 (fun k _ => rfl)
  exact ⟨h.1, h.2.1, h.2.2⟩

/-- Claim C9 (amended): a fetch outcome carries a body exactly when some
attempt within the retry budget answered with status exactly 200 and that
body, all earlier attempts having failed; and every status other than 200 —
other 2xx codes included — is a retryable failure, as is every transport
error. -/
theorem get_page_success_iff_status_200 (oc : Nat → AttemptOutcome)
    (maxRetries : Nat) (d : ℚ) (page : Nat) (b : String) :
    ((get_page oc maxRetries d page).2 = some b ↔
      ∃ k, k < maxRetries ∧ oc k = .httpStatus 200 b ∧
        ∀ j, j < k → attemptFails (oc j) = true) ∧
    (∀ code body, code ≠ 200 → attemptFails (.httpStatus code body) = true) ∧
    attemptFails .transportError = true := by
  refine ⟨?_, ?_, rfl⟩
  · show (get_page_go oc d 0 maxRetries).1 = some b ↔ _
    rw [get_page_go_some_iff]
    constructor
    · rintro ⟨k, _, hk2, hk3, hk4⟩
      exact ⟨k, by omega, hk3, fun j hj => hk4 j (by omega) hj⟩
    · rintro ⟨k, hk1, hk2, hk3⟩
      exact ⟨k, by omega, by omega, hk2, fun j _ hj => hk3 j hj⟩
  · intro code body hc
    simp [attemptFails, hc]

/-- Counterexample to C9 as stated: status 204 is a 2xx success status, yet
the fetch discards the body and exhausts its attempts, returning no
content. -/
theorem get_page_rejects_other_2xx_status :
    (get_page (fun _ => AttemptOutcome.httpStatus 204 "B") 1 0 9).2 = none ∧
    (get_page (fun _ => AttemptOutcome.httpStatus 204 "B") 1 0 9).2 ≠ some "B" ∧
    200 ≤ 204 ∧ 204 < 300 := by
  decide

/-- Counterexample to C3 as stated: when the pagination widget holds a
slash-bearing div whose text has no numeric pattern, the resolver does not
fall through to the page-wide div scan — whose first matching text here is
"3 / 7", which would yield 7 — but jumps to the TOC fallback and returns
the constant 560. -/
theorem get_total_pages_widget_blocks_div_scan :
    get_total_pages htmlWidgetNoMatch = 560 ∧
    divScanText htmlWidgetNoMatch = some "3 / 7" ∧
    findNumSlashNum ("3 / 7").data = some (3, 7) ∧
    (560 : Nat) ≠ 7 := by
  decide

/-- Claim C3 (amended): the heuristics run in the order of the code, with
the proviso that the page-wide div scan runs only when the widget holds no
slash-bearing div at all: (1) a widget slash-div whose text matches the
number/slash/number pattern yields the second number; (2) a widget
slash-div whose text does not match skips the div scan entirely — changing
the page's divs cannot change the result — and resolution proceeds to the
TOC stage; (3) with no widget slash-div, the first div of the page matching
the pattern yields its second number; (4) with no widget slash-div and no
matching div, the TOC stage decides; the TOC stage returns 560 when no TOC
page number exists and otherwise the maximum TOC page number. -/
theorem get_total_pages_heuristic_chain :
    (∀ (doc : Html) (t : String) (r : Nat × Nat),
      pageNavSlashText doc = some t → findNumSlashNum t.data = some r →
      get_total_pages doc = r.2) ∧
    (∀ (doc : Html) (t : String),
      pageNavSlashText doc = some t → findNumSlashNum t.data = none →
      get_total_pages doc = tocOrFallback doc ∧
      ∀ dts, get_total_pages { doc with divTexts := dts } =
        get_total_pages doc) ∧
    (∀ (doc : Html) (t : String) (r : Nat × Nat),
      pageNavSlashText doc = none → divScanText doc = some t →
      findNumSlashNum t.data = some r → get_total_pages doc = r.2) ∧
    (∀ (doc : Html), pageNavSlashText doc = none → divScanText doc = none →
      get_total_pages doc = tocOrFallback doc) ∧
    (∀ (doc : Html), tocPageNums doc = [] → tocOrFallback doc = 560) ∧
    (∀ (doc : Html), tocPageNums doc ≠ [] →
      tocOrFallback doc ∈ tocPageNums doc ∧
      ∀ x ∈ tocPageNums doc, x ≤ tocOrFallback doc) := by
  refine ⟨?_, ?_, ?_, ?_, ?_, ?_⟩
  · intro doc t r h1 h2
    simp only [get_total_pages, h1, h2]
  · intro doc t h1 h2
    constructor
    · simp only [get_total_pages, h1, h2]
    · intro dts
      have h1b : pageNavSlashText { doc with divTexts := dts } = some t := h1
      simp only [get_total_pages, h1, h1b, h2]
      rfl
  · intro doc t r h1 h2 h3
    simp only [get_total_pages, h1, h2, h3]
  · intro doc h1 h2
    simp only [get_total_pages, h1, h2]
  · intro doc h
    unfold tocOrFallback
    rw [h]
  · intro doc h
    cases hl : tocPageNums doc with
    | nil => exact absurd hl h
    | cons a t2 =>
      have he : tocOrFallback doc = t2.foldl Nat.max a := by
        unfold tocOrFallback
        rw [hl]
      constructor
      · rw [he]
        rcases foldl_max_mem t2 a with h2 | h2
        · rw [h2]
          exact List.mem_cons_self a t2
        · exact List.mem_cons_of_mem a h2
      · intro x hx
        rw [he]
        rcases List.mem_cons.mp hx with h2 | h2
        · subst h2
          exact le_foldl_max t2 x
        · exact mem_le_foldl_max t2 a x h2

/-- Witness for C3: a widget showing page 12 of 560 resolves to 560. -/
theorem get_total_pages_heuristic_chain_witness :
    get_total_pages htmlWidget560 = 560 :=
  get_total_pages_heuristic_chain.1 htmlWidget560 "12 / 560" (12, 560)
    (by decide) (by decide)

/-- Lengths are preserved by runs of the admission-gate machine. -/
theorem semExec_length (conc : Nat) (A : Nat → Nat) :
    ∀ (tr : List SemEv) (σ σ2 : List TaskSt),
      semExec conc A σ tr = some σ2 → σ2.length = σ.length := by
  intro tr
  induction tr with
  | nil =>
    intro σ σ2 h
    injection h with h
    subst h
    rfl
  | cons e es ih =>
    intro σ σ2 h
    unfold semExec at h
    cases hst : semStep conc A σ e with
    | none => rw [hst] at h; exact Option.noConfusion h
    | some σm =>
      rw [hst] at h
      have hm := ih σm σ2 h
      rcases semStep_char conc A σ e σm hst with
        ⟨i, _, _, _, hset⟩ | ⟨i, k, _, _, _, hset⟩ | ⟨i, _, _, hset⟩ <;>
        rw [hm, hset, List.length_set]

/-- The initial state holds no task active. -/
theorem activeCount_initTasks (n : Nat) : activeCount (initTasks n) = 0 := by
  induction n with
  | zero => rfl
  | succ n2 ih =>
    show activeCount (.idle :: initTasks n2) = 0
    rw [activeCount_cons, ih]
    rfl

/-- Gate specification for runs started from the initial state, over an
arbitrary per-task attempt budget. -/
theorem semExec_gate_spec (conc : Nat) (A : Nat → Nat) (n : Nat)
    (tr : List SemEv) (σ2 : List TaskSt)
    (h : semExec conc A (initTasks n) tr = some σ2) :
    activeCount σ2 ≤ conc ∧
    (∀ tr1 tr2, tr = tr1 ++ tr2 → ∀ σm,
      semExec conc A (initTasks n) tr1 = some σm → activeCount σm ≤ conc) ∧
    ∀ i, i < n →
      countEv tr (.acquire i) ≤ 1 ∧
      countEv tr (.release i) ≤ countEv tr (.acquire i) ∧
      countEv tr (.attempt i) ≤ A i ∧
      (1 ≤ countEv tr (.attempt i) → countEv tr (.acquire i) = 1) ∧
      (countEv tr (.release i) = 1 → countEv tr (.attempt i) = A i) := by
  have hinit0 : activeCount (initTasks n) = 0 := activeCount_initTasks n
  have hwfinit : wfSt A (initTasks n) := by
    intro j k hj
    unfold initTasks at hj
    rw [List.getElem?_replicate] at hj
    split at hj
    · injection hj with hj
      exact absurd hj (by simp)
    · exact Option.noConfusion hj
  refine ⟨semExec_inv conc A tr (initTasks n) σ2 h (by omega),
    fun tr1 tr2 _ σm hm =>
      semExec_inv conc A tr1 (initTasks n) σm hm (by omega), ?_⟩
  intro i hi
  have hwf : wfSt A σ2 := semExec_wf conc A tr (initTasks n) σ2 h hwfinit
  have hlen : σ2.length = n := by
    rw [semExec_length conc A tr (initTasks n) σ2 h]
    exact List.length_replicate n _
  have hi2 : i < σ2.length := by omega
  have hw2 : σ2[i]? = some σ2[i] := List.getElem?_eq_getElem hi2
  obtain ⟨w, hw, hc1, hc2, hc3⟩ :=
    semExec_counts conc A tr (initTasks n) σ2 h i σ2[i] hw2
  have hwidle : w = .idle := by
    unfold initTasks at hw
    rw [List.getElem?_replicate, if_pos hi] at hw
    injection hw with hw
    exact hw.symm
  subst hwidle
  cases hv : σ2[i] with
  | idle =>
    rw [hv] at hc1 hc2 hc3
    simp only [acqOf, attOf, relOf] at hc1 hc2 hc3
    exact ⟨by omega, by omega, by omega, by omega, by omega⟩
  | active k =>
    rw [hv] at hc1 hc2 hc3 hw2
    simp only [acqOf, attOf, relOf] at hc1 hc2 hc3
    have hk : k ≤ A i := hwf i k hw2
    exact ⟨by omega, by omega, by omega, by omega, by omega⟩
  | finished =>
    rw [hv] at hc1 hc2 hc3
    simp only [acqOf, attOf, relOf] at hc1 hc2 hc3
    exact ⟨by omega, by omega, by omega, by omega, by omega⟩

/-- Claim C4: with each task's attempt budget given by the retry loop of
`get_page`, no run of the admission-gate machine ever has more than the
configured concurrency of tasks holding the gate — in the final state and
in every prefix of the run — and every task acquires the gate at most once,
before any of its attempts, performs all its attempts while holding it, and
releases only after the full attempt sequence: one gate slot covers the
whole retry sequence, never one slot per attempt. -/
theorem semaphore_bounds_active_fetches (conc maxRetries : Nat) (d : ℚ)
    (ocs : Nat → Nat → AttemptOutcome) (n : Nat) (tr : List SemEv)
    (σ2 : List TaskSt)
    (h : semExec conc (fun i => get_page_attempts (ocs i) d maxRetries)
      (initTasks n) tr = some σ2) :
    activeCount σ2 ≤ conc ∧
    (∀ tr1 tr2, tr = tr1 ++ tr2 → ∀ σm,
      semExec conc (fun i => get_page_attempts (ocs i) d maxRetries)
        (initTasks n) tr1 = some σm → activeCount σm ≤ conc) ∧
    ∀ i, i < n →
      countEv tr (.acquire i) ≤ 1 ∧
      countEv tr (.release i) ≤ countEv tr (.acquire i) ∧
      countEv tr (.attempt i) ≤ get_page_attempts (ocs i) d maxRetries ∧
      (1 ≤ countEv tr (.attempt i) → countEv tr (.acquire i) = 1) ∧
      (countEv tr (.release i) = 1 →
        countEv tr (.attempt i) = get_page_attempts (ocs i) d maxRetries) :=
  semExec_gate_spec conc (fun i => get_page_attempts (ocs i) d maxRetries)
    n tr σ2 h

/-- Witness for C4: two one-attempt tasks run to completion one after the
other under capacity one. -/
theorem semaphore_bounds_active_fetches_witness :
    activeCount [TaskSt.finished, TaskSt.finished] ≤ 1 ∧
    (∀ tr1 tr2,
      ([SemEv.acquire 0, SemEv.attempt 0, SemEv.release 0, SemEv.acquire 1,
        SemEv.attempt 1, SemEv.release 1] : List SemEv) = tr1 ++ tr2 → ∀ σm,
      semExec 1 (fun _ => get_page_attempts
          (fun _ => AttemptOutcome.httpStatus 500 "") 0 1)
        (initTasks 2) tr1 = some σm → activeCount σm ≤ 1) ∧
    ∀ i, i < 2 →
      countEv [SemEv.acquire 0, SemEv.attempt 0, SemEv.release 0,
        SemEv.acquire 1, SemEv.attempt 1, SemEv.release 1] (.acquire i) ≤ 1 ∧
      countEv [SemEv.acquire 0, SemEv.attempt 0, SemEv.release 0,
        SemEv.acquire 1, SemEv.attempt 1, SemEv.release 1] (.release i) ≤
        countEv [SemEv.acquire 0, SemEv.attempt 0, SemEv.release 0,
          SemEv.acquire 1, SemEv.attempt 1, SemEv.release 1] (.acquire i) ∧
      countEv [SemEv.acquire 0, SemEv.attempt 0, SemEv.release 0,
        SemEv.acquire 1, SemEv.attempt 1, SemEv.release 1] (.attempt i) ≤
        get_page_attempts (fun _ => AttemptOutcome.httpStatus 500 "") 0 1 ∧
      (1 ≤ countEv [SemEv.acquire 0, SemEv.attempt 0, SemEv.release 0,
          SemEv.acquire 1, SemEv.attempt 1, SemEv.release 1] (.attempt i) →
        countEv [SemEv.acquire 0, SemEv.attempt 0, SemEv.release 0,
          SemEv.acquire 1, SemEv.attempt 1, SemEv.release 1] (.acquire i) = 1) ∧
      (countEv [SemEv.acquire 0, SemEv.attempt 0, SemEv.release 0,
          SemEv.acquire 1, SemEv.attempt 1, SemEv.release 1] (.release i) = 1 →
        countEv [SemEv.acquire 0, SemEv.attempt 0, SemEv.release 0,
          SemEv.acquire 1, SemEv.attempt 1, SemEv.release 1] (.attempt i) =
          get_page_attempts (fun _ => AttemptOutcome.httpStatus 500 "") 0 1) :=
  semaphore_bounds_active_fetches 1 1 0 (fun _ _ => .httpStatus 500 "") 2
    [SemEv.acquire 0, SemEv.attempt 0, SemEv.release 0, SemEv.acquire 1,
      SemEv.attempt 1, SemEv.release 1] [TaskSt.finished, TaskSt.finished]
    (by decide)

/-- A string with an empty character list is the empty string. -/
theorem string_data_nil {s : String} (h : s.data = []) : s = "" :=
  congrArg String.mk h

/-- Claim C6: the extractor is a total function of its markup — absent or
empty markup yields the empty string at once, and markup in which every
cascading pass finds nothing yields the empty string rather than an
error. -/
theorem extract_content_total_empty_on_no_match :
    extract_content_from_html none = "" ∧
    ∀ (doc : Html),
      (doc.articles.map processArticle).flatten = [] →
      doc.fallbackParas.filterMap keepPlain = [] →
      (∀ ps, doc.genericParas = some ps → ps.filterMap keepPlain = []) →
      extract_content_from_html (some doc) = "" := by
  refine ⟨rfl, ?_⟩
  intro doc h1 h2 h3
  cases hg : doc.genericParas with
  | none => simp [extract_content_from_html, h1, h2, hg]
  | some ps => simp [extract_content_from_html, h1, h2, hg, h3 ps hg]

/-- Witness for C6: markup whose single article holds only a bare page
number extracts to the empty string. -/
theorem extract_content_total_empty_witness :
    extract_content_from_html (some htmlNoise) = "" :=
  extract_content_total_empty_on_no_match.2 htmlNoise (by decide) (by decide)
    (fun _ hps => Option.noConfusion hps)

/-- Claim C7: a first-pass paragraph is excluded whenever its stripped text
is empty, or consists solely of digits, or it contains an internal anchor
reference and has fewer than five characters of remaining text; an article
all of whose paragraphs are such footnote-anchor stubs contributes
nothing. -/
theorem paragraph_filter_exclusions :
    (∀ p : Para,
      p.text = "" ∨ p.text.data.all Char.isDigit = true ∨
        (p.hasInternalAnchor = true ∧ p.text.length < 5) →
      paraContribution p = none) ∧
    (∀ a : Article,
      (∀ q ∈ a.paragraphs, q.hasInternalAnchor = true ∧ q.text.length < 5) →
      processArticle a = []) := by
  have hmain : ∀ p : Para,
      p.text = "" ∨ p.text.data.all Char.isDigit = true ∨
        (p.hasInternalAnchor = true ∧ p.text.length < 5) →
      paraContribution p = none := by
    intro p hp
    unfold paraContribution
    by_cases ha : p.hasInternalAnchor ∧ p.text.length < 5
    · rw [if_pos ha]
    · rw [if_neg ha]
      rcases hp with h | h | h
      · have hnc : ¬(p.text ≠ "" ∧ pyMatchAllDigits p.text = false) :=
          fun hc => hc.1 h
        rw [if_neg hnc]
      · by_cases ht : p.text = ""
        · have hnc : ¬(p.text ≠ "" ∧ pyMatchAllDigits p.text = false) :=
            fun hc => hc.1 ht
          rw [if_neg hnc]
        · have hd : p.text.data.isEmpty = false := by
            cases hld : p.text.data with
            | nil => exact absurd (string_data_nil hld) ht
            | cons c cs => rfl
          have hm : pyMatchAllDigits p.text = true := by
            unfold pyMatchAllDigits
            rw [hd, h]
            rfl
          have hnc : ¬(p.text ≠ "" ∧ pyMatchAllDigits p.text = false) := by
            intro hc
            rw [hm] at hc
            exact absurd hc.2 (by simp)
          rw [if_neg hnc]
      · exact absurd ⟨h.1, h.2⟩ ha
  refine ⟨hmain, ?_⟩
  intro a hall
  unfold processArticle
  rw [List.filterMap_eq_nil_iff]
  intro q hq
  exact hmain q (Or.inr (Or.inr (hall q hq)))

/-- Witness for C7: a paragraph whose stripped text is a bare page number
is excluded. -/
theorem paragraph_filter_exclusions_witness :
    paraContribution { hasInternalAnchor := false, text := "42" } = none :=
  paragraph_filter_exclusions.1 _ (Or.inr (Or.inl (by decide)))

/-- Counterexample to C8 as stated: a surviving paragraph text that does not
begin with a digits-dash prefix is still altered by the cleanup, because the
substitution removes the digits-dash occurrence in the middle of the
text. -/
theorem cleanText_changes_non_prefix_occurrence :
    paraContribution { hasInternalAnchor := false, text := "a1-b" } = some "ab" ∧
    ddMatch ("a1-b").data = none ∧
    ("ab" : String) ≠ "a1-b" := by
  decide

/-- Claim C8 (amended): the cleanup removes every digits-dash occurrence
throughout the surviving text, not only a leading footnote marker: a
leading digit-run-dash prefix is removed with cleanup continuing on the
remainder, and a text is guaranteed unchanged only when it contains no
digits-dash occurrence anywhere. -/
theorem cleanText_removes_all_digit_dash :
    (∀ d s : String, d ≠ "" → d.data.all Char.isDigit = true →
      cleanText (d ++ "-" ++ s) = cleanText s) ∧
    (∀ s : String, hasDigitDash s = false → cleanText s = s) := by
  constructor
  · intro d s hne hdig
    unfold cleanText
    have hdata : (d ++ "-" ++ s).data = d.data ++ '-' :: s.data := by
      simp [String.data_append]
    rw [hdata]
    have hdne : d.data ≠ [] := fun h0 => hne (string_data_nil h0)
    rw [pySubDD_digits_head d.data s.data hdne hdig]
  · intro s h
    unfold cleanText pySubDD
    rw [pySubDDFuel_id_of_no_dd s.data.length s.data (Nat.le_refl _) h]

/-- Witness for C8: the leading marker of a footnote-marked paragraph is
stripped, and the marker-free remainder is stable. -/
theorem cleanText_removes_all_digit_dash_witness :
    cleanText "37-أجل" = "أجل" := by
  have h1 := cleanText_removes_all_digit_dash.1 "37" "أجل" (by decide) (by decide)
  have h2 := cleanText_removes_all_digit_dash.2 "أجل" (by decide)
  have he : ("37" ++ "-" ++ "أجل" : String) = "37-أجل" := by decide
  rw [← he, h1, h2]
